import Mathlib

/-!
Verification of the recursive file-system watcher (parcel-backed) of this
repository against its specification.

The repository excerpt contains the watcher's full test suite
(`src/src/vs/platform/windows/electron-browser/windowsService.ts`, third
concatenated document: suite "File Watcher (parcel)") together with the test
subclass `TestParcelWatcher`, but not the `ParcelWatcher` implementation
itself (imported from `vs/platform/files/node/watcher/parcel/parcelWatcher`).
The engine-side definitions below are therefore modelled from the spec
(sections 3, 4.1-4.4, 6, 7 of spec.md), with the in-repository test suite
providing the authoritative concrete inputs and outputs.

Paths are kept as `String`s as in the source; all path comparison goes
through explicit segmentation on the `/` separator so that every definition
is executable and kernel-evaluable on concrete inputs.
-/

/-! ## Path segmentation and comparison -/

/-- Split a character list on the path separator `/`. -/
def splitSegsAux (cur : List Char) (acc : List (List Char)) : List Char → List (List Char)
  | [] => (cur.reverse :: acc).reverse
  | c :: cs =>
    if c = '/' then splitSegsAux [] (cur.reverse :: acc) cs
    else splitSegsAux (c :: cur) acc cs

/-- The non-empty `/`-separated segments of a path string. -/
def pathSegments (p : String) : List (List Char) :=
  (splitSegsAux [] [] p.data).filter (fun s => s ≠ [])

/-- Normalize one path segment: lower-cased when the file system is
case-insensitive (`ic = true`), kept verbatim otherwise.
Modelled from the spec: "Case-sensitivity of path comparison follows OS
semantics (case-insensitive on Windows/macOS by default, case-sensitive on
Linux)". -/
def normSeg (ic : Bool) (s : List Char) : List Char :=
  if ic then s.map Char.toLower else s

/-- Normalized segments of a path, under case-sensitivity flag `ic`. -/
def segsOf (ic : Bool) (p : String) : List (List Char) :=
  (pathSegments p).map (normSeg ic)

/-- Two paths denote the same file-system location under flag `ic`. -/
def pathEq (ic : Bool) (a b : String) : Bool :=
  segsOf ic a = segsOf ic b

/-- Whether `a` is `b` itself or an ancestor directory of `b` (prefix of segments). -/
def isEqualOrAncestor (ic : Bool) (a b : String) : Bool :=
  (segsOf ic a).isPrefixOf (segsOf ic b)

/-- Number of segments of a path (its depth in the hierarchy). -/
def pathDepth (p : String) : Nat :=
  (pathSegments p).length

/-- Whether `a` is a strict ancestor directory of `b`. -/
def isStrictAncestor (ic : Bool) (a b : String) : Bool :=
  isEqualOrAncestor ic a b && decide (pathDepth a < pathDepth b)

/-! ## Watch requests -/

/-- A recursive watch request.
Translated from the source interface `IRecursiveWatchRequest` as used by the
test suite: `{ path, excludes, includes?, recursive, correlationId?,
pollingInterval? }`. -/
structure WatchRequest where
  path : String
  excludes : List String
  includes : Option (List String) := none
  recursive : Bool := true
  correlationId : Option Nat := none
  pollingInterval : Option Nat := none
deriving DecidableEq, Repr

/-- The glob pattern matching every path under a root. -/
def GLOBSTAR : String := "**"

/-- A request whose excludes contain `**` excludes everything under its root.
Modelled from the spec: "When every path under a root is excluded by its own
exclude patterns, the request is dropped entirely (ignore when everything
excluded)"; the source test passes `excludes = ['**', 'something']` and
expects the empty result. -/
def hasGlobstarExclude (r : WatchRequest) : Bool :=
  r.excludes.any (fun e => e = GLOBSTAR)

/-! ## Deduplication of watch requests (PathNormalizer)

Modelled from the spec, section 4.1: nested/overlapping uncorrelated roots
are collapsed — the shorter (higher) path wins and the longer path's request
is dropped, excludes not merged; correlated requests pass through untouched,
grouped per `correlationId`; fully self-excluded requests are dropped.
Concrete behaviour is fixed by the source tests
"should not exclude roots that do not overlap",
"should remove sub-folders of other paths" and
"should ignore when everything excluded". -/

/-- Collapse requests for the same path within one correlation group to one
(first occurrence kept). -/
def dedupByPath : List WatchRequest → List WatchRequest
  | [] => []
  | r :: rs => r :: (dedupByPath rs).filter (fun x => decide (x.path ≠ r.path))

/-- Insert a request into a depth-sorted list, keeping the sort stable. -/
def insertByDepth (r : WatchRequest) : List WatchRequest → List WatchRequest
  | [] => [r]
  | x :: xs =>
    if pathDepth x.path < pathDepth r.path then x :: insertByDepth r xs
    else r :: x :: xs

/-- Stable sort of requests by path depth (shorter/higher paths first), so
that an ancestor always precedes its descendants. -/
def sortByDepth : List WatchRequest → List WatchRequest
  | [] => []
  | r :: rs => insertByDepth r (sortByDepth rs)

/-- Keep a request only when no previously kept request watches the same root
or an ancestor of it (root comparison is case-sensitive, Linux semantics). -/
def keepNonOverlapping (kept : List WatchRequest) : List WatchRequest → List WatchRequest
  | [] => kept
  | r :: rest =>
    if kept.any (fun k => isEqualOrAncestor false k.path r.path) then
      keepNonOverlapping kept rest
    else
      keepNonOverlapping (kept ++ [r]) rest

/-- Normalize one correlation group: drop duplicate paths, then drop every
request nested under another request of the group. -/
def normalizeGroup (g : List WatchRequest) : List WatchRequest :=
  keepNonOverlapping [] (sortByDepth (dedupByPath g))

/-- Drop later duplicates of a list of correlation ids, keeping the order of
first occurrence. -/
def dedupKeepFirst : List (Option Nat) → List (Option Nat)
  | [] => []
  | x :: xs => x :: (dedupKeepFirst xs).filter (fun y => decide (y ≠ x))

/-- The distinct correlation ids of a request list, in order of first
occurrence. -/
def correlationIdsOf (rs : List WatchRequest) : List (Option Nat) :=
  dedupKeepFirst (rs.map (fun r => r.correlationId))

/-- Modelled from the spec: `removeDuplicateRequests` of the ParcelWatcher
(the implementation is not part of the excerpt; only its tests are).
Fully self-excluded requests are dropped; the survivors are grouped by
correlation id (correlated requests are never merged with other groups);
within a group, duplicate paths collapse and requests nested under another
request of the same group are dropped, the shallower root winning. -/
def removeDuplicateRequests (requests : List WatchRequest) : List WatchRequest :=
  let live := requests.filter (fun r => !hasGlobstarExclude r)
  (correlationIdsOf live).flatMap
    (fun cid => normalizeGroup (live.filter (fun r => decide (r.correlationId = cid))))

/-- Translated from the source (`TestParcelWatcher.testRemoveDuplicateRequests`):
wraps plain paths into uncorrelated recursive requests sharing `excludes`,
runs `removeDuplicateRequests`, and returns the surviving paths. -/
def testRemoveDuplicateRequests (paths : List String) (excludes : List String) : List String :=
  (removeDuplicateRequests (paths.map (fun p =>
    { path := p, excludes := excludes : WatchRequest }))).map (fun r => r.path)

/-- C5: `testRemoveDuplicateRequests(['/a','/a/b'])` returns `['/a']`, and with
excludes `['**']` (also `['**','something']` as in the source test) every
request is dropped entirely, so `testRemoveDuplicateRequests(['/foo/bar','/bar'])`
returns `[]`. -/
theorem removeDuplicates_drops_nested_and_fully_excluded :
    testRemoveDuplicateRequests ["/a", "/a/b"] [] = ["/a"]
    ∧ testRemoveDuplicateRequests ["/foo/bar", "/bar"] ["**"] = []
    ∧ testRemoveDuplicateRequests ["/foo/bar", "/bar"] ["**", "something"] = [] := by
  refine ⟨?_, ?_, ?_⟩ <;> decide

/-! ## Watch instances, filters and event translation

Modelled from the spec, section 4.2: a `WatchInstance` wraps one native
recursive watch for one request; `include(path)`/`exclude(path)` report
whether a path falls under the instance's include/exclude filter; a failed
instance no longer includes any path (source test "deleting watched path
emits watcher fail and delete event if correlated" asserts
`instance.include(folderPath) === false` after failure). -/

/-- File change event types, translated from `FileChangeType` in the source. -/
inductive FileChangeType where
  | ADDED
  | UPDATED
  | DELETED
deriving DecidableEq, Repr

/-- A file change event: resource path, change type, optional correlation id
(field `cId` in the source test suite). -/
structure FileChangeEvent where
  resource : String
  type : FileChangeType
  cId : Option Nat
deriving DecidableEq, Repr

/-- One listener subscription of an instance: a listener handle and the path
it listens under. -/
structure Subscription where
  listenerId : Nat
  path : String
deriving DecidableEq, Repr

/-- Modelled from the spec: a `WatchInstance` owns one native watch for one
root request, tracks per-path listener subscriptions and `failed`/`stopped`
flags. -/
structure WatchInstance where
  request : WatchRequest
  failed : Bool := false
  stopped : Bool := false
  subscriptions : List Subscription := []
deriving DecidableEq, Repr

/-- A fresh, healthy instance for a request. -/
def toInstance (r : WatchRequest) : WatchInstance :=
  { request := r }

/-- Modelled from the spec: pattern matching of include/exclude entries —
"glob + explicit relative/absolute pattern support, base-relative patterns
resolved against the request path". Globs are modelled by the `**` pattern
(matches everything); any other pattern is a literal path: absolute when it
starts with the separator, otherwise resolved against the request path
`base`; it matches the target and everything below it. -/
def matchesPattern (ic : Bool) (base pat p : String) : Bool :=
  if pat = GLOBSTAR then true
  else if pat.data.head? = some '/' then isEqualOrAncestor ic pat p
  else (segsOf ic base ++ segsOf ic pat).isPrefixOf (segsOf ic p)

/-- Modelled from the spec: `exclude(path)` — whether a path is matched by
one of the instance's exclude patterns. -/
def excludePath (ic : Bool) (i : WatchInstance) (p : String) : Bool :=
  i.request.excludes.any (fun pat => matchesPattern ic i.request.path pat p)

/-- Modelled from the spec: `include(path)` — whether a path falls under the
instance's filter: under the watched root, not excluded, and matched by the
includes allow-list when one is present; a failed instance no longer
includes any path. -/
def includePath (ic : Bool) (i : WatchInstance) (p : String) : Bool :=
  if i.failed then false
  else
    isEqualOrAncestor ic i.request.path p
    && !excludePath ic i p
    && (match i.request.includes with
        | none => true
        | some pats => pats.any (fun pat => matchesPattern ic i.request.path pat p))

/-- Raw OS-level notification kinds delivered by the native watch library. -/
inductive RawKind where
  | rawCreate
  | rawUpdate
  | rawDelete
deriving DecidableEq, Repr

/-- A raw OS-level notification for one path. -/
structure RawEvent where
  path : String
  kind : RawKind
deriving DecidableEq, Repr

/-- Translation of raw notification kinds into file change event types.
Modelled from the spec: "OS-level create/modify/rename/delete notifications
are normalized into Added/Updated/Deleted". -/
def rawToType : RawKind → FileChangeType
  | .rawCreate => .ADDED
  | .rawUpdate => .UPDATED
  | .rawDelete => .DELETED

/-- Modelled from the spec: the events an instance emits for a burst of raw
notifications — one event per notification whose path passes the instance's
filter, tagged with the request's correlation id. -/
def emitEvents (ic : Bool) (i : WatchInstance) (raws : List RawEvent) : List FileChangeEvent :=
  raws.filterMap (fun e =>
    if includePath ic i e.path then
      some { resource := e.path, type := rawToType e.kind, cId := i.request.correlationId }
    else none)

/-- Engine-level dispatch: the merged event stream over all instances.
Modelled from the spec: the engine "emits a single merged onDidChangeFile
stream" fed by every instance. -/
def dispatch (ic : Bool) (insts : List WatchInstance) (raws : List RawEvent) : List FileChangeEvent :=
  insts.flatMap (fun i => emitEvents ic i raws)

/-! ## File-system operations and the raw notifications they produce

Modelled from the spec, section 4.2 event translation: creating, modifying
or deleting an entry produces exactly one raw notification; a rename
produces delete(old) + create(new), including case-only renames; a bare
`stat` or `read` produces no real change and therefore no notification. -/

/-- The file-system state: the list of existing paths. -/
def FS : Type := List String

/-- Whether a path exists in the file system (comparison per OS case flag). -/
def fsContains (ic : Bool) (s : FS) (p : String) : Bool :=
  s.any (fun q => pathEq ic q p)

/-- Remove a path from the file system. -/
def fsRemove (ic : Bool) (s : FS) (p : String) : FS :=
  s.filter (fun q => !pathEq ic q p)

/-- File-system operations exercised by the source test suite. -/
inductive FSOp where
  | create (p : String)
  | write (p : String)
  | rename (o n : String)
  | delete (p : String)
  | statOp (p : String)
  | readOp (p : String)
deriving DecidableEq, Repr

/-- Apply one operation to the file system, returning the new state and the
raw notifications the native watch library delivers for it. -/
def applyOp (ic : Bool) (s : FS) : FSOp → FS × List RawEvent
  | .create p =>
    if fsContains ic s p then (s, []) else (p :: s, [{ path := p, kind := .rawCreate }])
  | .write p =>
    if fsContains ic s p then (s, [{ path := p, kind := .rawUpdate }]) else (s, [])
  | .rename o n =>
    if fsContains ic s o then
      (n :: fsRemove ic s o, [{ path := o, kind := .rawDelete }, { path := n, kind := .rawCreate }])
    else (s, [])
  | .delete p =>
    if fsContains ic s p then (fsRemove ic s p, [{ path := p, kind := .rawDelete }]) else (s, [])
  | .statOp _ => (s, [])
  | .readOp _ => (s, [])

/-! ## Listener subscriptions (section 4.2)

Modelled from the spec: `subscribe(path, listener)` registers a listener for
change events under `path` and returns a disposable that deregisters only
that listener; multiple subscriptions on identical paths are independent and
each receives every matching event. -/

/-- Register a listener handle for events under `p`. -/
def subscribe (i : WatchInstance) (id : Nat) (p : String) : WatchInstance :=
  { i with subscriptions := i.subscriptions ++ [{ listenerId := id, path := p }] }

/-- Dispose the subscription of one listener handle: deregisters exactly the
subscriptions carrying that handle. -/
def disposeSubscription (i : WatchInstance) (id : Nat) : WatchInstance :=
  { i with subscriptions := i.subscriptions.filter (fun s => decide (s.listenerId ≠ id)) }

/-- The listener handles of an instance that receive a given event: those
subscribed to the event's path or an ancestor of it. -/
def deliverTo (ic : Bool) (i : WatchInstance) (e : FileChangeEvent) : List Nat :=
  (i.subscriptions.filter (fun s => isEqualOrAncestor ic s.path e.resource)).map
    (fun s => s.listenerId)

/-! ## Failure and recovery (sections 4.3, 7)

Modelled from the spec: WatchLost (root deleted after a successful watch) is
not fatal — the instance is marked failed and `onWatchFail` fires; correlated
requests additionally get an explicit DELETED event for the root, tagged with
their correlation id. On reappearance the engine creates a fresh instance
for the request. -/

/-- Result of the engine's handling of a deleted watch root. -/
structure FailResult where
  inst : WatchInstance
  watchFailFired : Bool
  events : List FileChangeEvent
deriving DecidableEq, Repr

/-- Modelled from the spec: when the watched root of an instance is deleted,
the instance is marked failed, `onWatchFail` fires, and — for correlated
requests only — a DELETED event for the root is emitted with that request's
correlation id. -/
def handleRootDeleted (i : WatchInstance) : FailResult :=
  { inst := { i with failed := true },
    watchFailFired := true,
    events :=
      match i.request.correlationId with
      | some c => [{ resource := i.request.path, type := .DELETED, cId := some c }]
      | none => [] }

/-- Modelled from the spec: on reappearance of a missing root the engine
creates a fresh `WatchInstance` for the same request (failed/stopped are
terminal per instance, so the old one is never revived). -/
def restartWatch (r : WatchRequest) : WatchInstance :=
  toInstance r

/-! ## Suspension (section 4.3) -/

/-- The polling interval used by the test watcher, translated from the source
(`TestParcelWatcher`: `suspendedWatchRequestPollingInterval = 100`). -/
def suspendedWatchRequestPollingInterval : Nat := 100

/-- Answer of `isSuspended(request)`: `false`, `true` (parent-delegated) or
`'polling'` in the source API. -/
inductive SuspendAnswer where
  | notSuspended
  | suspendedParent
  | suspendedPolling
deriving DecidableEq, Repr

/-- The engine state relevant to suspension: active instances and the set of
suspended requests (those whose root is currently missing). -/
structure EngineState where
  instances : List WatchInstance
  suspended : List WatchRequest
deriving DecidableEq, Repr

/-- Whether an active instance can observe the reappearance of the missing
root of `r`: it must be healthy and watch a strict ancestor of `r`'s root. -/
def canObserveParent (ic : Bool) (i : WatchInstance) (r : WatchRequest) : Bool :=
  !i.failed && !i.stopped && isStrictAncestor ic i.request.path r.path

/-- Modelled from the spec: `isSuspended(request)` exposes the current mode —
not suspended; suspended with parent delegation when an existing watcher
observes an ancestor of the missing root; otherwise suspended with polling
(a timer at the configured interval checks for reappearance). -/
def isSuspended (ic : Bool) (st : EngineState) (r : WatchRequest) : SuspendAnswer :=
  if st.suspended.any (fun q => decide (q = r)) then
    if st.instances.any (fun i => canObserveParent ic i r) then
      .suspendedParent
    else
      .suspendedPolling
  else .notSuspended

/-! ## The engine's watch() call (sections 4.4, 7)

Modelled from the spec: `watch(requests)` never throws synchronously for a
bad request in the batch; a request the native watcher rejects or whose root
does not exist is reported asynchronously (warn log) and suspended, while
every other request in the same call is watched unaffected. The per-request
native subscription is the only fallible step. -/

/-- Modelled from the spec: the native recursive-watch subscription for one
request — rejects malformed paths (empty string) outright and fails when the
root does not exist. -/
def nativeSubscribe (fs : FS) (r : WatchRequest) : Except String WatchInstance :=
  if r.path = "" then .error "native watcher rejects path"
  else if fsContains false fs r.path then .ok (toInstance r)
  else .error "watch root does not exist"

/-- Accumulated outcome of one `watch()` call. -/
structure WatchResult where
  instances : List WatchInstance
  suspended : List WatchRequest
  warnings : List String
deriving DecidableEq, Repr

/-- Handle one normalized request: a native failure is caught, logged and the
request suspended; a success adds an active instance. -/
def watchStep (fs : FS) (acc : WatchResult) (r : WatchRequest) : WatchResult :=
  match nativeSubscribe fs r with
  | .ok i => { acc with instances := acc.instances ++ [i] }
  | .error msg =>
    { acc with
        suspended := acc.suspended ++ [r],
        warnings := acc.warnings ++ [msg] }

/-- Modelled from the spec: the engine's `watch(requests)` — normalizes the
batch and processes every request, catching every per-request native failure so
that the call itself never propagates an error. -/
def watch (fs : FS) (requests : List WatchRequest) : Except String WatchResult :=
  .ok ((removeDuplicateRequests requests).foldl (watchStep fs)
    { instances := [], suspended := [], warnings := [] })

/-! ## Basic path lemmas -/

theorem isEqualOrAncestor_refl (ic : Bool) (p : String) :
    isEqualOrAncestor ic p p = true := by
  simp [isEqualOrAncestor, List.isPrefixOf_iff_prefix]

theorem pathEq_refl (ic : Bool) (p : String) : pathEq ic p p = true := by
  simp [pathEq]

theorem isEqualOrAncestor_length_le (ic : Bool) (a b : String)
    (h : isEqualOrAncestor ic a b = true) : pathDepth a ≤ pathDepth b := by
  rw [isEqualOrAncestor, List.isPrefixOf_iff_prefix] at h
  have := h.length_le
  simpa [segsOf, pathDepth] using this

theorem isStrictAncestor_spec (ic : Bool) (a b : String)
    (h : isStrictAncestor ic a b = true) :
    isEqualOrAncestor ic a b = true ∧ pathDepth a < pathDepth b := by
  rw [isStrictAncestor, Bool.and_eq_true, decide_eq_true_eq] at h
  exact h

/-- A healthy instance over a request with no excludes and no includes
allow-list includes every path under its root. -/
theorem includePath_of_under (ic : Bool) (r : WatchRequest) (p : String)
    (hx : r.excludes = []) (hi : r.includes = none)
    (h : isEqualOrAncestor ic r.path p = true) :
    includePath ic (toInstance r) p = true := by
  simp [includePath, excludePath, toInstance, hx, hi, h]

/-- C10: before failure, a request with empty excludes includes its own root
(`include(root) = true`, `exclude(root) = false`); once the instance has
failed, `include` returns `false` for the request's own path — and indeed for
every path. -/
theorem include_flips_false_on_failure (ic : Bool) (r : WatchRequest)
    (hx : r.excludes = []) (hi : r.includes = none) :
    includePath ic (toInstance r) r.path = true
    ∧ excludePath ic (toInstance r) r.path = false
    ∧ includePath ic { toInstance r with failed := true } r.path = false
    ∧ ∀ p, includePath ic { toInstance r with failed := true } p = false := by
  refine ⟨?_, ?_, ?_, fun p => ?_⟩
  · exact includePath_of_under ic r r.path hx hi (isEqualOrAncestor_refl ic r.path)
  · simp [excludePath, toInstance, hx]
  · simp [includePath]
  · simp [includePath]

theorem include_flips_false_on_failure_witness :
    includePath false (toInstance { path := "/w", excludes := [] }) "/w" = true
    ∧ excludePath false (toInstance { path := "/w", excludes := [] }) "/w" = false
    ∧ includePath false { toInstance { path := "/w", excludes := [] } with failed := true } "/w" = false
    ∧ includePath false { toInstance { path := "/w", excludes := [] } with failed := true } "/w/deep/x" = false :=
  ⟨(include_flips_false_on_failure false { path := "/w", excludes := [] } rfl rfl).1,
   (include_flips_false_on_failure false { path := "/w", excludes := [] } rfl rfl).2.1,
   (include_flips_false_on_failure false { path := "/w", excludes := [] } rfl rfl).2.2.1,
   (include_flips_false_on_failure false { path := "/w", excludes := [] } rfl rfl).2.2.2 "/w/deep/x"⟩

/-- C3: with an ancestor of `p` watched (no filters), creating the absent
file `p` produces exactly one ADDED event for `p`; a subsequent write
produces exactly one UPDATED; deleting it produces exactly one DELETED; and
a pure `stat` or `read` of any path never produces an event. -/
theorem crud_emits_exactly_one_event (ic : Bool) (r : WatchRequest) (p : String) (s : FS)
    (hx : r.excludes = []) (hi : r.includes = none)
    (hunder : isEqualOrAncestor ic r.path p = true)
    (habsent : fsContains ic s p = false) :
    emitEvents ic (toInstance r) (applyOp ic s (.create p)).2
      = [{ resource := p, type := .ADDED, cId := r.correlationId }]
    ∧ emitEvents ic (toInstance r) (applyOp ic (applyOp ic s (.create p)).1 (.write p)).2
      = [{ resource := p, type := .UPDATED, cId := r.correlationId }]
    ∧ emitEvents ic (toInstance r) (applyOp ic (applyOp ic s (.create p)).1 (.delete p)).2
      = [{ resource := p, type := .DELETED, cId := r.correlationId }]
    ∧ ∀ q s', emitEvents ic (toInstance r) (applyOp ic s' (.statOp q)).2 = []
        ∧ emitEvents ic (toInstance r) (applyOp ic s' (.readOp q)).2 = [] := by
  have hinc := includePath_of_under ic r p hx hi hunder
  simp only [toInstance] at hinc
  have hpresent : fsContains ic (p :: s) p = true := by
    simp [fsContains, pathEq_refl]
  refine ⟨?_, ?_, ?_, fun q s' => ⟨rfl, rfl⟩⟩
  · simp [applyOp, habsent, emitEvents, hinc, rawToType, toInstance]
  · simp [applyOp, habsent, hpresent, emitEvents, hinc, rawToType, toInstance]
  · simp [applyOp, habsent, hpresent, emitEvents, hinc, rawToType, toInstance]

theorem crud_emits_exactly_one_event_witness :
    emitEvents false (toInstance { path := "/w", excludes := [] })
      (applyOp false ["/w", "/w/deep"] (.create "/w/deep/newFile.txt")).2
      = [{ resource := "/w/deep/newFile.txt", type := .ADDED, cId := none }]
    ∧ emitEvents false (toInstance { path := "/w", excludes := [] })
        (applyOp false (applyOp false ["/w", "/w/deep"] (.create "/w/deep/newFile.txt")).1
          (.write "/w/deep/newFile.txt")).2
      = [{ resource := "/w/deep/newFile.txt", type := .UPDATED, cId := none }]
    ∧ emitEvents false (toInstance { path := "/w", excludes := [] })
        (applyOp false (applyOp false ["/w", "/w/deep"] (.create "/w/deep/newFile.txt")).1
          (.delete "/w/deep/newFile.txt")).2
      = [{ resource := "/w/deep/newFile.txt", type := .DELETED, cId := none }]
    ∧ emitEvents false (toInstance { path := "/w", excludes := [] })
        (applyOp false ["/w"] (.statOp "/w/deep/newFile.txt")).2 = []
    ∧ emitEvents false (toInstance { path := "/w", excludes := [] })
        (applyOp false ["/w"] (.readOp "/w/deep/newFile.txt")).2 = [] :=
  ⟨(crud_emits_exactly_one_event false { path := "/w", excludes := [] }
      "/w/deep/newFile.txt" ["/w", "/w/deep"] rfl rfl (by decide) (by decide)).1,
   (crud_emits_exactly_one_event false { path := "/w", excludes := [] }
      "/w/deep/newFile.txt" ["/w", "/w/deep"] rfl rfl (by decide) (by decide)).2.1,
   (crud_emits_exactly_one_event false { path := "/w", excludes := [] }
      "/w/deep/newFile.txt" ["/w", "/w/deep"] rfl rfl (by decide) (by decide)).2.2.1,
   ((crud_emits_exactly_one_event false { path := "/w", excludes := [] }
      "/w/deep/newFile.txt" ["/w", "/w/deep"] rfl rfl (by decide) (by decide)).2.2.2
      "/w/deep/newFile.txt" ["/w"]).1,
   ((crud_emits_exactly_one_event false { path := "/w", excludes := [] }
      "/w/deep/newFile.txt" ["/w", "/w/deep"] rfl rfl (by decide) (by decide)).2.2.2
      "/w/deep/newFile.txt" ["/w"]).2⟩

/-- C4: renaming a watched entry produces exactly two events — DELETED for
the old path then ADDED for the new path — on every OS (`ic` covers both
case-sensitive and case-insensitive file systems), including renames that
change only the letter case of the name. -/
theorem rename_emits_delete_then_add (ic : Bool) (r : WatchRequest) (o n : String) (s : FS)
    (hx : r.excludes = []) (hi : r.includes = none)
    (ho : isEqualOrAncestor ic r.path o = true)
    (hn : isEqualOrAncestor ic r.path n = true)
    (hexists : fsContains ic s o = true) :
    emitEvents ic (toInstance r) (applyOp ic s (.rename o n)).2
      = [{ resource := o, type := .DELETED, cId := r.correlationId },
         { resource := n, type := .ADDED, cId := r.correlationId }] := by
  have hinco := includePath_of_under ic r o hx hi ho
  have hincn := includePath_of_under ic r n hx hi hn
  simp only [toInstance] at hinco hincn
  simp [applyOp, hexists, emitEvents, hinco, hincn, rawToType, toInstance]

theorem rename_emits_delete_then_add_witness :
    emitEvents true (toInstance { path := "/w/deep", excludes := [] })
      (applyOp true ["/w/deep", "/w/deep/renamedFile.txt"]
        (.rename "/w/deep/renamedFile.txt" "/w/deep/RenamedFile.txt")).2
      = [{ resource := "/w/deep/renamedFile.txt", type := .DELETED, cId := none },
         { resource := "/w/deep/RenamedFile.txt", type := .ADDED, cId := none }] :=
  rename_emits_delete_then_add true { path := "/w/deep", excludes := [] }
    "/w/deep/renamedFile.txt" "/w/deep/RenamedFile.txt"
    ["/w/deep", "/w/deep/renamedFile.txt"] rfl rfl (by decide) (by decide) (by decide)

/-- C6: disposing one of two listeners subscribed on the same path
deregisters only that listener — the instance returns to its previous
subscription state, the disposed listener receives no subsequent event,
every other listener's delivery is unchanged, and the remaining listener on
that path still receives every matching event. -/
theorem dispose_affects_only_own_listener (ic : Bool) (i : WatchInstance)
    (id1 id2 : Nat) (p : String)
    (h1 : ({ listenerId := id1, path := p } : Subscription) ∈ i.subscriptions)
    (h2 : ∀ sub ∈ i.subscriptions, sub.listenerId ≠ id2) :
    disposeSubscription (subscribe i id2 p) id2 = i
    ∧ (∀ e, id2 ∉ deliverTo ic (disposeSubscription (subscribe i id2 p) id2) e)
    ∧ (∀ e, deliverTo ic (disposeSubscription (subscribe i id2 p) id2) e = deliverTo ic i e)
    ∧ (∀ e : FileChangeEvent, isEqualOrAncestor ic p e.resource = true →
        id1 ∈ deliverTo ic (disposeSubscription (subscribe i id2 p) id2) e) := by
  have heq : disposeSubscription (subscribe i id2 p) id2 = i := by
    cases i with
    | mk req fl st subs =>
      simp only [disposeSubscription, subscribe, WatchInstance.mk.injEq, true_and,
        List.filter_append]
      have h3 : subs.filter (fun s => decide (s.listenerId ≠ id2)) = subs := by
        rw [List.filter_eq_self]
        intro a ha
        simpa using h2 a ha
      simp only [h3]
      simp
  refine ⟨heq, fun e hmem => ?_, fun e => by rw [heq], fun e he => ?_⟩
  · rw [heq] at hmem
    rw [deliverTo, List.mem_map] at hmem
    obtain ⟨sub, hsub, hid⟩ := hmem
    exact h2 sub (List.mem_filter.mp hsub).1 hid
  · rw [heq, deliverTo]
    exact List.mem_map.mpr ⟨{ listenerId := id1, path := p },
      List.mem_filter.mpr ⟨h1, by simpa using he⟩, rfl⟩

theorem dispose_affects_only_own_listener_witness :
    disposeSubscription
      (subscribe
        { request := { path := "/w", excludes := [] },
          subscriptions := [{ listenerId := 1, path := "/w/deep" }] } 2 "/w/deep") 2
      = { request := { path := "/w", excludes := [] },
          subscriptions := [{ listenerId := 1, path := "/w/deep" }] }
    ∧ 2 ∉ deliverTo false
        (disposeSubscription
          (subscribe
            { request := { path := "/w", excludes := [] },
              subscriptions := [{ listenerId := 1, path := "/w/deep" }] } 2 "/w/deep") 2)
        { resource := "/w/deep/newFile.txt", type := .ADDED, cId := none }
    ∧ deliverTo false
        (disposeSubscription
          (subscribe
            { request := { path := "/w", excludes := [] },
              subscriptions := [{ listenerId := 1, path := "/w/deep" }] } 2 "/w/deep") 2)
        { resource := "/w/deep/newFile.txt", type := .ADDED, cId := none }
      = deliverTo false
        { request := { path := "/w", excludes := [] },
          subscriptions := [{ listenerId := 1, path := "/w/deep" }] }
        { resource := "/w/deep/newFile.txt", type := .ADDED, cId := none }
    ∧ 1 ∈ deliverTo false
        (disposeSubscription
          (subscribe
            { request := { path := "/w", excludes := [] },
              subscriptions := [{ listenerId := 1, path := "/w/deep" }] } 2 "/w/deep") 2)
        { resource := "/w/deep/newFile.txt", type := .ADDED, cId := none } :=
  ⟨(dispose_affects_only_own_listener false
      { request := { path := "/w", excludes := [] },
        subscriptions := [{ listenerId := 1, path := "/w/deep" }] } 1 2 "/w/deep"
      (by decide) (by decide)).1,
   (dispose_affects_only_own_listener false
      { request := { path := "/w", excludes := [] },
        subscriptions := [{ listenerId := 1, path := "/w/deep" }] } 1 2 "/w/deep"
      (by decide) (by decide)).2.1 _,
   (dispose_affects_only_own_listener false
      { request := { path := "/w", excludes := [] },
        subscriptions := [{ listenerId := 1, path := "/w/deep" }] } 1 2 "/w/deep"
      (by decide) (by decide)).2.2.1 _,
   (dispose_affects_only_own_listener false
      { request := { path := "/w", excludes := [] },
        subscriptions := [{ listenerId := 1, path := "/w/deep" }] } 1 2 "/w/deep"
      (by decide) (by decide)).2.2.2 _ (by decide)⟩

/-- C7: deleting the root of a correlated watch fires the watch-failure
notification, marks the instance failed, and emits a DELETED event for the
root tagged with the request's correlation id; a fresh instance created for
the recreated root again delivers ADDED/UPDATED/DELETED events (one per raw
notification kind) for children under the root, tagged with the same
correlation id. -/
theorem correlated_root_delete_fails_and_resumes (r : WatchRequest) (c : Nat)
    (hc : r.correlationId = some c) (hx : r.excludes = []) (hi : r.includes = none) :
    (handleRootDeleted (toInstance r)).watchFailFired = true
    ∧ (handleRootDeleted (toInstance r)).inst.failed = true
    ∧ (handleRootDeleted (toInstance r)).events
        = [{ resource := r.path, type := .DELETED, cId := some c }]
    ∧ ∀ (ic : Bool) (p : String) (k : RawKind), isEqualOrAncestor ic r.path p = true →
        emitEvents ic (restartWatch r) [{ path := p, kind := k }]
          = [{ resource := p, type := rawToType k, cId := some c }] := by
  refine ⟨rfl, rfl, ?_, fun ic p k hunder => ?_⟩
  · simp [handleRootDeleted, toInstance, hc]
  · have hinc := includePath_of_under ic r p hx hi hunder
    simp only [toInstance] at hinc
    simp [restartWatch, emitEvents, toInstance, hinc, hc]

theorem correlated_root_delete_fails_and_resumes_witness :
    (handleRootDeleted (toInstance { path := "/w/deep", excludes := [], correlationId := some 1 })).watchFailFired = true
    ∧ (handleRootDeleted (toInstance { path := "/w/deep", excludes := [], correlationId := some 1 })).inst.failed = true
    ∧ (handleRootDeleted (toInstance { path := "/w/deep", excludes := [], correlationId := some 1 })).events
        = [{ resource := "/w/deep", type := .DELETED, cId := some 1 }]
    ∧ emitEvents false (restartWatch { path := "/w/deep", excludes := [], correlationId := some 1 })
        [{ path := "/w/deep/newFile.txt", kind := .rawCreate }]
        = [{ resource := "/w/deep/newFile.txt", type := .ADDED, cId := some 1 }] :=
  ⟨(correlated_root_delete_fails_and_resumes
      { path := "/w/deep", excludes := [], correlationId := some 1 } 1 rfl rfl rfl).1,
   (correlated_root_delete_fails_and_resumes
      { path := "/w/deep", excludes := [], correlationId := some 1 } 1 rfl rfl rfl).2.1,
   (correlated_root_delete_fails_and_resumes
      { path := "/w/deep", excludes := [], correlationId := some 1 } 1 rfl rfl rfl).2.2.1,
   (correlated_root_delete_fails_and_resumes
      { path := "/w/deep", excludes := [], correlationId := some 1 } 1 rfl rfl rfl).2.2.2
      false "/w/deep/newFile.txt" .rawCreate (by decide)⟩

/-- C8: `isSuspended(request)` answers exactly one of the three modes: for a
suspended request whose missing root is observable by a healthy watcher of a
strict ancestor it answers parent-delegated (`true`); for a suspended
request with no such ancestor watcher it answers `'polling'`, whose
reappearance check runs at the configured polling interval (100ms in the
test watcher); for a request that is not suspended it answers `false`. -/
theorem isSuspended_three_modes (ic : Bool) (st : EngineState) (r : WatchRequest)
    (hs : st.suspended.any (fun q => decide (q = r)) = true) :
    (st.instances.any (fun i => canObserveParent ic i r) = true →
        isSuspended ic st r = .suspendedParent)
    ∧ (st.instances.any (fun i => canObserveParent ic i r) = false →
        isSuspended ic st r = .suspendedPolling)
    ∧ (∀ st' : EngineState, st'.suspended.any (fun q => decide (q = r)) = false →
        isSuspended ic st' r = .notSuspended)
    ∧ suspendedWatchRequestPollingInterval = 100 := by
  refine ⟨fun hobs => ?_, fun hnoobs => ?_, fun st' hns => ?_, rfl⟩
  · simp [isSuspended, hs, hobs]
  · simp [isSuspended, hs, hnoobs]
  · simp [isSuspended, hns]

theorem isSuspended_three_modes_witness :
    isSuspended false
      { instances := [toInstance { path := "/w", excludes := [] }],
        suspended := [{ path := "/w/not-found", excludes := [], correlationId := some 1 }] }
      { path := "/w/not-found", excludes := [], correlationId := some 1 }
      = .suspendedParent
    ∧ isSuspended false
      { instances := [],
        suspended := [{ path := "/w/not-found", excludes := [], correlationId := some 1 }] }
      { path := "/w/not-found", excludes := [], correlationId := some 1 }
      = .suspendedPolling
    ∧ isSuspended false { instances := [], suspended := [] }
      { path := "/w/not-found", excludes := [], correlationId := some 1 }
      = .notSuspended
    ∧ suspendedWatchRequestPollingInterval = 100 :=
  ⟨(isSuspended_three_modes false
      { instances := [toInstance { path := "/w", excludes := [] }],
        suspended := [{ path := "/w/not-found", excludes := [], correlationId := some 1 }] }
      { path := "/w/not-found", excludes := [], correlationId := some 1 } (by decide)).1
      (by decide),
   (isSuspended_three_modes false
      { instances := [],
        suspended := [{ path := "/w/not-found", excludes := [], correlationId := some 1 }] }
      { path := "/w/not-found", excludes := [], correlationId := some 1 } (by decide)).2.1
      (by decide),
   (isSuspended_three_modes false
      { instances := [],
        suspended := [{ path := "/w/not-found", excludes := [], correlationId := some 1 }] }
      { path := "/w/not-found", excludes := [], correlationId := some 1 } (by decide)).2.2.1
      { instances := [], suspended := [] } (by decide),
   (isSuspended_three_modes false
      { instances := [],
        suspended := [{ path := "/w/not-found", excludes := [], correlationId := some 1 }] }
      { path := "/w/not-found", excludes := [], correlationId := some 1 } (by decide)).2.2.2⟩

/-! ## Lemmas about watch(): totality and partial-failure semantics -/

/-- Characterization of the fold inside `watch`: active instances come from
the requests the native watcher accepts, suspended requests and warnings
from the ones it rejects — independently of one another. -/
theorem watchStep_foldl_spec (fs : FS) :
    ∀ (l : List WatchRequest) (acc : WatchResult),
      (l.foldl (watchStep fs) acc).instances
          = acc.instances ++ l.filterMap (fun r =>
              match nativeSubscribe fs r with
              | .ok i => some i
              | .error _ => none)
      ∧ (l.foldl (watchStep fs) acc).suspended
          = acc.suspended ++ l.filter (fun r =>
              match nativeSubscribe fs r with
              | .ok _ => false
              | .error _ => true)
      ∧ (l.foldl (watchStep fs) acc).warnings.length
          = acc.warnings.length + (l.filter (fun r =>
              match nativeSubscribe fs r with
              | .ok _ => false
              | .error _ => true)).length := by
  intro l
  induction l with
  | nil => intro acc; simp
  | cons r rest ih =>
    intro acc
    obtain ⟨ih1, ih2, ih3⟩ := ih (watchStep fs acc r)
    cases h : nativeSubscribe fs r with
    | ok i =>
      refine ⟨?_, ?_, ?_⟩
      · rw [List.foldl_cons, ih1]
        simp [watchStep, h]
      · rw [List.foldl_cons, ih2]
        simp [watchStep, h]
      · rw [List.foldl_cons, ih3]
        simp [watchStep, h]
    | error msg =>
      refine ⟨?_, ?_, ?_⟩
      · rw [List.foldl_cons, ih1]
        simp [watchStep, h]
      · rw [List.foldl_cons, ih2]
        simp [watchStep, h]
      · rw [List.foldl_cons, ih3]
        simp [watchStep, h, Nat.add_assoc, Nat.add_comm 1]

/-- C9: `watch(requests)` never propagates an error: for every file system
state and every batch it returns `ok`, the active instances are exactly
those of the normalized requests the native watcher accepts (so a bad
request in the batch leaves every good request watched, unaffected), the
suspended requests are exactly the rejected ones, and every rejected
request is reported by exactly one warning. -/
theorem watch_never_throws_isolates_failures (fs : FS) (requests : List WatchRequest) :
    ∃ st : WatchResult, watch fs requests = Except.ok st
      ∧ st.instances = (removeDuplicateRequests requests).filterMap (fun r =>
          match nativeSubscribe fs r with
          | .ok i => some i
          | .error _ => none)
      ∧ st.suspended = (removeDuplicateRequests requests).filter (fun r =>
          match nativeSubscribe fs r with
          | .ok _ => false
          | .error _ => true)
      ∧ st.warnings.length = st.suspended.length := by
  obtain ⟨h1, h2, h3⟩ := watchStep_foldl_spec fs (removeDuplicateRequests requests)
    { instances := [], suspended := [], warnings := [] }
  refine ⟨_, rfl, ?_, ?_, ?_⟩
  · simpa using h1
  · simpa using h2
  · rw [h3, h2]
    simp

/-! ## Lemmas about removeDuplicateRequests on distinct correlation ids -/

theorem filter_no_globstar (rs : List WatchRequest)
    (hglob : ∀ r ∈ rs, hasGlobstarExclude r = false) :
    rs.filter (fun r => !hasGlobstarExclude r) = rs := by
  rw [List.filter_eq_self]
  intro a ha
  simp [hglob a ha]

theorem dedupKeepFirst_of_nodup (l : List (Option Nat)) (h : l.Pairwise (· ≠ ·)) :
    dedupKeepFirst l = l := by
  induction l with
  | nil => rfl
  | cons x xs ih =>
    rw [List.pairwise_cons] at h
    have hfix : xs.filter (fun y => decide (y ≠ x)) = xs :=
      List.filter_eq_self.mpr (fun a ha => by simpa using (h.1 a ha).symm)
    rw [dedupKeepFirst, ih h.2, hfix]

theorem flatMapCongr {α β : Type} (l : List α) (f g : α → List β)
    (h : ∀ a ∈ l, f a = g a) : l.flatMap f = l.flatMap g := by
  induction l with
  | nil => rfl
  | cons x xs ih =>
    simp only [List.flatMap_cons]
    rw [h x (List.mem_cons_self x xs), ih (fun a ha => h a (List.mem_cons_of_mem x ha))]

theorem normalizeGroup_singleton (r : WatchRequest) : normalizeGroup [r] = [r] := rfl

/-- Every request keeps its own singleton correlation group when all
correlation ids in the list are pairwise distinct. -/
theorem flatMap_groups_of_distinct (rs : List WatchRequest)
    (hdist : rs.Pairwise (fun a b => a.correlationId ≠ b.correlationId)) :
    (rs.map (fun r => r.correlationId)).flatMap
      (fun cid => normalizeGroup (rs.filter (fun r => decide (r.correlationId = cid)))) = rs := by
  induction rs with
  | nil => rfl
  | cons r rest ih =>
    rw [List.pairwise_cons] at hdist
    have hhead : ∀ b ∈ rest, r.correlationId ≠ b.correlationId := hdist.1
    simp only [List.map_cons, List.flatMap_cons]
    have hfirst : (r :: rest).filter (fun x => decide (x.correlationId = r.correlationId)) = [r] := by
      rw [List.filter_cons_of_pos (by simp)]
      have hnil : rest.filter (fun x => decide (x.correlationId = r.correlationId)) = [] :=
        List.filter_eq_nil_iff.mpr
          (fun a ha => by simpa using fun hcid => hhead a ha hcid.symm)
      rw [hnil]
    have hrestgroups :
        (rest.map (fun r => r.correlationId)).flatMap
          (fun cid => normalizeGroup ((r :: rest).filter (fun x => decide (x.correlationId = cid))))
        = (rest.map (fun r => r.correlationId)).flatMap
          (fun cid => normalizeGroup (rest.filter (fun x => decide (x.correlationId = cid)))) := by
      apply flatMapCongr
      intro c hc
      obtain ⟨b, hb, hbc⟩ := List.mem_map.mp hc
      have : decide (r.correlationId = c) = false := by
        simp only [decide_eq_false_iff_not]
        rw [← hbc]
        exact hhead b hb
      rw [List.filter_cons_of_neg (by simp [this])]
    rw [hfirst, normalizeGroup_singleton, hrestgroups, ih hdist.2, List.singleton_append]

/-- C2: requests carrying pairwise distinct correlation ids are never merged:
`removeDuplicateRequests` (and hence `watch()`) preserves all of them even on
identical or overlapping paths, and a single raw file change is delivered
once per surviving request whose filter matches it (so three correlated
watches of one directory yield three events for one file creation). -/
theorem correlated_requests_never_merged (rs : List WatchRequest)
    (hdist : rs.Pairwise (fun a b => a.correlationId ≠ b.correlationId))
    (hglob : ∀ r ∈ rs, hasGlobstarExclude r = false) :
    removeDuplicateRequests rs = rs
    ∧ ∀ (ic : Bool) (p : String) (k : RawKind),
        (dispatch ic ((removeDuplicateRequests rs).map toInstance)
          [{ path := p, kind := k }]).length
          = (rs.filter (fun r => includePath ic (toInstance r) p)).length := by
  have hids : correlationIdsOf rs = rs.map (fun r => r.correlationId) := by
    rw [correlationIdsOf]
    exact dedupKeepFirst_of_nodup _ (List.pairwise_map.mpr hdist)
  have hmain : removeDuplicateRequests rs = rs := by
    rw [removeDuplicateRequests]
    simp only [filter_no_globstar rs hglob, hids]
    exact flatMap_groups_of_distinct rs hdist
  refine ⟨hmain, fun ic p k => ?_⟩
  rw [hmain]
  have hcount : ∀ insts : List WatchInstance,
      (dispatch ic insts [{ path := p, kind := k }]).length
        = (insts.filter (fun i => includePath ic i p)).length := by
    intro insts
    induction insts with
    | nil => rfl
    | cons i is ih =>
      by_cases h : includePath ic i p = true
      · simp [dispatch, List.flatMap_cons, emitEvents, h, List.filter_cons_of_pos,
          ← ih, dispatch]
      · rw [Bool.not_eq_true] at h
        simp [dispatch, List.flatMap_cons, emitEvents, h, List.filter_cons_of_neg,
          ← ih, dispatch]
  rw [hcount (rs.map toInstance), List.filter_map, List.length_map]
  rfl

theorem correlated_requests_never_merged_witness :
    removeDuplicateRequests
      [{ path := "/w", excludes := [], correlationId := some 1 },
       { path := "/w", excludes := [], correlationId := some 2 },
       { path := "/w", excludes := [], correlationId := some 3 }]
      = [{ path := "/w", excludes := [], correlationId := some 1 },
         { path := "/w", excludes := [], correlationId := some 2 },
         { path := "/w", excludes := [], correlationId := some 3 }]
    ∧ (dispatch false
        ((removeDuplicateRequests
          [{ path := "/w", excludes := [], correlationId := some 1 },
           { path := "/w", excludes := [], correlationId := some 2 },
           { path := "/w", excludes := [], correlationId := some 3 }]).map toInstance)
        [{ path := "/w/newFile.txt", kind := .rawCreate }]).length = 3 :=
  ⟨(correlated_requests_never_merged
      [{ path := "/w", excludes := [], correlationId := some 1 },
       { path := "/w", excludes := [], correlationId := some 2 },
       { path := "/w", excludes := [], correlationId := some 3 }]
      (by decide) (by decide)).1,
   ((correlated_requests_never_merged
      [{ path := "/w", excludes := [], correlationId := some 1 },
       { path := "/w", excludes := [], correlationId := some 2 },
       { path := "/w", excludes := [], correlationId := some 3 }]
      (by decide) (by decide)).2 false "/w/newFile.txt" .rawCreate).trans (by decide)⟩

/-! ## Lemmas about normalization of uncorrelated requests -/

theorem insertByDepth_mem (r : WatchRequest) :
    ∀ (l : List WatchRequest) (a : WatchRequest),
      a ∈ insertByDepth r l ↔ a = r ∨ a ∈ l := by
  intro l
  induction l with
  | nil => intro a; simp [insertByDepth]
  | cons x xs ih =>
    intro a
    simp only [insertByDepth]
    by_cases h : pathDepth x.path < pathDepth r.path
    · simp only [if_pos h, List.mem_cons, ih]
      tauto
    · simp only [if_neg h, List.mem_cons]

theorem insertByDepth_pairwise (r : WatchRequest) :
    ∀ l : List WatchRequest,
      l.Pairwise (fun a b => pathDepth a.path ≤ pathDepth b.path) →
      (insertByDepth r l).Pairwise (fun a b => pathDepth a.path ≤ pathDepth b.path) := by
  intro l
  induction l with
  | nil => intro _; simp [insertByDepth]
  | cons x xs ih =>
    intro h
    rw [List.pairwise_cons] at h
    simp only [insertByDepth]
    by_cases hlt : pathDepth x.path < pathDepth r.path
    · rw [if_pos hlt, List.pairwise_cons]
      refine ⟨?_, ih h.2⟩
      intro y hy
      rcases (insertByDepth_mem r xs y).mp hy with rfl | hy'
      · exact le_of_lt hlt
      · exact h.1 y hy'
    · rw [if_neg hlt, List.pairwise_cons]
      have hle : pathDepth r.path ≤ pathDepth x.path := Nat.le_of_not_lt hlt
      refine ⟨?_, List.pairwise_cons.mpr h⟩
      intro y hy
      rcases List.mem_cons.mp hy with rfl | hy'
      · exact hle
      · exact le_trans hle (h.1 y hy')

theorem sortByDepth_pairwise :
    ∀ l : List WatchRequest,
      (sortByDepth l).Pairwise (fun a b => pathDepth a.path ≤ pathDepth b.path) := by
  intro l
  induction l with
  | nil => simp [sortByDepth]
  | cons r rs ih => simpa only [sortByDepth] using insertByDepth_pairwise r _ ih

theorem sortByDepth_mem :
    ∀ (l : List WatchRequest) (a : WatchRequest), a ∈ sortByDepth l ↔ a ∈ l := by
  intro l
  induction l with
  | nil => intro a; simp [sortByDepth]
  | cons r rs ih =>
    intro a
    simp only [sortByDepth, insertByDepth_mem, ih, List.mem_cons]

theorem keepNonOverlapping_kept_mem :
    ∀ (pending kept : List WatchRequest) (a : WatchRequest), a ∈ kept →
      a ∈ keepNonOverlapping kept pending := by
  intro pending
  induction pending with
  | nil => intro kept a ha; simpa [keepNonOverlapping] using ha
  | cons q rest ih =>
    intro kept a ha
    cases h : kept.any (fun k => isEqualOrAncestor false k.path q.path) with
    | true =>
      simp only [keepNonOverlapping, h, if_true]
      exact ih kept a ha
    | false =>
      simp only [keepNonOverlapping, h, Bool.false_eq_true, if_false]
      exact ih _ a (List.mem_append_left _ ha)

theorem keepNonOverlapping_pairwise :
    ∀ (pending kept : List WatchRequest),
      kept.Pairwise (fun a b => isEqualOrAncestor false a.path b.path = false
        ∧ pathDepth a.path ≤ pathDepth b.path) →
      pending.Pairwise (fun a b => pathDepth a.path ≤ pathDepth b.path) →
      (∀ k ∈ kept, ∀ q ∈ pending, pathDepth k.path ≤ pathDepth q.path) →
      (keepNonOverlapping kept pending).Pairwise
        (fun a b => isEqualOrAncestor false a.path b.path = false
          ∧ pathDepth a.path ≤ pathDepth b.path) := by
  intro pending
  induction pending with
  | nil => intro kept hk _ _; simpa [keepNonOverlapping] using hk
  | cons q rest ih =>
    intro kept hk hp hcross
    rw [List.pairwise_cons] at hp
    cases h : kept.any (fun k => isEqualOrAncestor false k.path q.path) with
    | true =>
      simp only [keepNonOverlapping, h, if_true]
      exact ih kept hk hp.2 (fun k hkm y hy => hcross k hkm y (List.mem_cons_of_mem q hy))
    | false =>
      simp only [keepNonOverlapping, h, Bool.false_eq_true, if_false]
      apply ih (kept ++ [q])
      · rw [List.pairwise_append]
        refine ⟨hk, by simp, ?_⟩
        intro a ha b hb
        rw [List.mem_singleton] at hb
        rw [hb]
        refine ⟨?_, hcross a ha q (List.mem_cons_self q rest)⟩
        have h2 := List.any_eq_false.mp h a ha
        simpa using h2
      · exact hp.2
      · intro k hkm y hy
        rcases List.mem_append.mp hkm with hkk | hkq
        · exact hcross k hkk y (List.mem_cons_of_mem q hy)
        · rw [List.mem_singleton] at hkq
          subst hkq
          exact hp.1 y hy

theorem keepNonOverlapping_mem_preserved :
    ∀ (pending kept : List WatchRequest) (r : WatchRequest), r ∈ pending →
      (∀ k ∈ kept, isEqualOrAncestor false k.path r.path = false) →
      (∀ q ∈ pending, q = r ∨ isEqualOrAncestor false q.path r.path = false) →
      r ∈ keepNonOverlapping kept pending := by
  intro pending
  induction pending with
  | nil => intro kept r hr _ _; exact absurd hr (List.not_mem_nil r)
  | cons q rest ih =>
    intro kept r hr hkept hpend
    cases h : kept.any (fun k => isEqualOrAncestor false k.path q.path) with
    | true =>
      simp only [keepNonOverlapping, h, if_true]
      have hqr : q ≠ r := by
        intro hq
        obtain ⟨k, hkm, hkp⟩ := List.any_eq_true.mp h
        subst hq
        exact absurd (hkept k hkm) (by simp [hkp])
      have hr' : r ∈ rest := by
        rcases List.mem_cons.mp hr with hrq | hx
        · exact absurd hrq.symm hqr
        · exact hx
      exact ih kept r hr' hkept (fun y hy => hpend y (List.mem_cons_of_mem q hy))
    | false =>
      simp only [keepNonOverlapping, h, Bool.false_eq_true, if_false]
      by_cases hq : q = r
      · subst hq
        exact keepNonOverlapping_kept_mem rest (kept ++ [q]) q (by simp)
      · have hr' : r ∈ rest := by
          rcases List.mem_cons.mp hr with hrq | hx
          · exact absurd hrq.symm hq
          · exact hx
        apply ih (kept ++ [q]) r hr'
        · intro k hkm
          rcases List.mem_append.mp hkm with hkk | hkq
          · exact hkept k hkk
          · rw [List.mem_singleton] at hkq
            subst hkq
            rcases hpend k (List.mem_cons_self k rest) with hcon | hok
            · exact absurd hcon hq
            · exact hok
        · exact fun y hy => hpend y (List.mem_cons_of_mem q hy)

theorem dedupByPath_sub :
    ∀ (l : List WatchRequest) (a : WatchRequest), a ∈ dedupByPath l → a ∈ l := by
  intro l
  induction l with
  | nil => intro a ha; exact absurd ha (List.not_mem_nil a)
  | cons y ys ih =>
    intro a ha
    simp only [dedupByPath, List.mem_cons] at ha
    rcases ha with rfl | hf
    · exact List.mem_cons_self a ys
    · exact List.mem_cons_of_mem y (ih a (List.mem_of_mem_filter hf))

theorem dedupByPath_mem :
    ∀ (l : List WatchRequest) (r : WatchRequest), r ∈ l →
      (∀ x ∈ l, x.path = r.path → x = r) → r ∈ dedupByPath l := by
  intro l
  induction l with
  | nil => intro r hr; exact absurd hr (List.not_mem_nil r)
  | cons y ys ih =>
    intro r hr huniq
    by_cases hy : y = r
    · subst hy
      simp only [dedupByPath, List.mem_cons]
      left
      trivial
    · have hr' : r ∈ ys := by
        rcases List.mem_cons.mp hr with hry | hx
        · exact absurd hry.symm hy
        · exact hx
      have hpne : r.path ≠ y.path := by
        intro hp
        exact hy (huniq y (List.mem_cons_self y ys) hp.symm)
      simp only [dedupByPath, List.mem_cons, List.mem_filter]
      right
      exact ⟨ih r hr' (fun x hx hp => huniq x (List.mem_cons_of_mem y hx) hp),
        by simpa using hpne⟩

theorem dedupKeepFirst_all_none :
    ∀ l : List (Option Nat), (∀ c ∈ l, c = none) →
      dedupKeepFirst l = if l = [] then [] else [none] := by
  intro l
  induction l with
  | nil => intro _; rfl
  | cons x xs ih =>
    intro h
    have hx : x = none := h x (List.mem_cons_self x xs)
    subst hx
    have hxs := ih (fun c hc => h c (List.mem_cons_of_mem none hc))
    rw [dedupKeepFirst, hxs]
    by_cases he : xs = []
    · simp [he]
    · simp [he]

/-- For an all-uncorrelated request list, `removeDuplicateRequests` is the
normalization of the single correlation group of the surviving requests. -/
theorem removeDuplicateRequests_all_none (rs : List WatchRequest)
    (hunc : ∀ r ∈ rs, r.correlationId = none) :
    removeDuplicateRequests rs
      = normalizeGroup (rs.filter (fun r => !hasGlobstarExclude r)) := by
  have hlnone : ∀ r ∈ rs.filter (fun r => !hasGlobstarExclude r), r.correlationId = none :=
    fun r hr => hunc r (List.mem_of_mem_filter hr)
  have hmap : ∀ c ∈ (rs.filter (fun r => !hasGlobstarExclude r)).map
      (fun r => r.correlationId), c = none := by
    intro c hc
    obtain ⟨b, hb, rfl⟩ := List.mem_map.mp hc
    exact hlnone b hb
  simp only [removeDuplicateRequests, correlationIdsOf]
  rw [dedupKeepFirst_all_none _ hmap]
  by_cases hemp : rs.filter (fun r => !hasGlobstarExclude r) = []
  · simp [hemp, normalizeGroup, dedupByPath, sortByDepth, keepNonOverlapping]
  · rw [if_neg (by simpa using hemp)]
    have hfull : (rs.filter (fun r => !hasGlobstarExclude r)).filter
        (fun r => decide (r.correlationId = none))
        = rs.filter (fun r => !hasGlobstarExclude r) := by
      rw [List.filter_eq_self]
      intro a ha
      simp [hlnone a ha]
    simp only [List.flatMap_cons, List.flatMap_nil, List.append_nil, hfull]

/-- In the normalized order (ancestor-or-equal earlier entries of lesser
depth), neither entry is a strict ancestor of the other. -/
theorem noOverlap_of_ordered (a b : WatchRequest)
    (h : isEqualOrAncestor false a.path b.path = false
      ∧ pathDepth a.path ≤ pathDepth b.path) :
    isStrictAncestor false a.path b.path = false
    ∧ isStrictAncestor false b.path a.path = false := by
  constructor
  · cases hs : isStrictAncestor false a.path b.path with
    | false => rfl
    | true => exact absurd (isStrictAncestor_spec false _ _ hs).1 (by simp [h.1])
  · cases hs : isStrictAncestor false b.path a.path with
    | false => rfl
    | true =>
      have h1 := (isStrictAncestor_spec false _ _ hs).2
      have h2 := h.2
      omega

/-- C1 counterexample: a batch of a single uncorrelated request — trivially
free of root overlap — whose excludes contain `**` is dropped entirely by
`removeDuplicateRequests`, so requests with non-overlapping roots are not
unconditionally preserved. -/
theorem removeDuplicates_drops_nonoverlapping_request :
    removeDuplicateRequests [{ path := "/a", excludes := ["**"] }] = []
    ∧ removeDuplicateRequests [{ path := "/a", excludes := ["**"] }]
      ≠ [{ path := "/a", excludes := ["**"] }] := by
  refine ⟨by decide, by decide⟩

/-- C1 (amended): for every all-uncorrelated request list, the output of
`removeDuplicateRequests` has no two entries with one path a strict ancestor
of the other; and every request whose root overlaps no other request's root
and whose excludes do not exclude everything (no `**` pattern) survives. -/
theorem removeDuplicates_no_nested_preserves_nonoverlap (rs : List WatchRequest)
    (hunc : ∀ r ∈ rs, r.correlationId = none) :
    (removeDuplicateRequests rs).Pairwise
      (fun a b => isStrictAncestor false a.path b.path = false
        ∧ isStrictAncestor false b.path a.path = false)
    ∧ ∀ r ∈ rs, hasGlobstarExclude r = false →
        (∀ x ∈ rs, x = r ∨ (isEqualOrAncestor false x.path r.path = false
          ∧ isEqualOrAncestor false r.path x.path = false)) →
        r ∈ removeDuplicateRequests rs := by
  rw [removeDuplicateRequests_all_none rs hunc]
  constructor
  · have hT := keepNonOverlapping_pairwise
      (sortByDepth (dedupByPath (rs.filter (fun r => !hasGlobstarExclude r)))) []
      (by simp) (sortByDepth_pairwise _) (by simp)
    exact hT.imp (fun {a b} h => noOverlap_of_ordered a b h)
  · intro r hrs hg hov
    have hrl : r ∈ rs.filter (fun r => !hasGlobstarExclude r) :=
      List.mem_filter.mpr ⟨hrs, by simp [hg]⟩
    have hd : r ∈ dedupByPath (rs.filter (fun r => !hasGlobstarExclude r)) := by
      apply dedupByPath_mem _ r hrl
      intro x hx hp
      rcases hov x (List.mem_of_mem_filter hx) with heq | hpair
      · exact heq
      · exact absurd hpair.1 (by rw [hp, isEqualOrAncestor_refl]; simp)
    have hsorted : r ∈ sortByDepth (dedupByPath (rs.filter (fun r => !hasGlobstarExclude r))) :=
      (sortByDepth_mem _ _).mpr hd
    apply keepNonOverlapping_mem_preserved _ [] r hsorted (by simp)
    intro q hq
    have hqrs : q ∈ rs :=
      List.mem_of_mem_filter (dedupByPath_sub _ _ ((sortByDepth_mem _ _).mp hq))
    rcases hov q hqrs with heq | hpair
    · exact Or.inl heq
    · exact Or.inr hpair.1

theorem removeDuplicates_no_nested_preserves_nonoverlap_witness :
    (removeDuplicateRequests
      [{ path := "/a", excludes := [] }, { path := "/a/b", excludes := [] },
       { path := "/b", excludes := [] }]).Pairwise
      (fun a b => isStrictAncestor false a.path b.path = false
        ∧ isStrictAncestor false b.path a.path = false)
    ∧ ({ path := "/b", excludes := [] } : WatchRequest) ∈ removeDuplicateRequests
      [{ path := "/a", excludes := [] }, { path := "/a/b", excludes := [] },
       { path := "/b", excludes := [] }] :=
  ⟨(removeDuplicates_no_nested_preserves_nonoverlap
      [{ path := "/a", excludes := [] }, { path := "/a/b", excludes := [] },
       { path := "/b", excludes := [] }] (by decide)).1,
   (removeDuplicates_no_nested_preserves_nonoverlap
      [{ path := "/a", excludes := [] }, { path := "/a/b", excludes := [] },
       { path := "/b", excludes := [] }] (by decide)).2
      { path := "/b", excludes := [] } (by decide) (by decide) (by decide)⟩
